import Mathlib

/-!
Shallow embedding of the spectroscopy library (cd_library.py, abs_library.py):
JASCO spectrum records and their signal-transformation pipeline.

Pandas Series are modelled as lists of (index label, value) pairs; a value of
`none` stands for NaN.  Numeric values are rationals.  Operations that raise a
Python exception before mutating the record are modelled as `Option`/`Except`
returns, `none`/`error` meaning the exception propagates and the caller's
record is unchanged.
-/

/-- A pandas Series with integer index labels and no NaN values. -/
abbrev Series := List (Nat × ℚ)

/-- A pandas Series with integer index labels whose values may be NaN (`none`). -/
abbrev SeriesN := List (Nat × Option ℚ)

/-- Build a Series from a parsed column: labels are positions 0,1,... -/
def Series.ofList (l : List ℚ) : Series := l.enum

/-- Build a NaN-able Series from a parsed column. -/
def SeriesN.ofList (l : List ℚ) : SeriesN := l.enum.map (fun p => (p.1, some p.2))

/-- Values of a NaN-able series, in order. -/
def SeriesN.values (s : SeriesN) : List (Option ℚ) := s.map Prod.snd

/-- `s[s == v].index[0]`: label of the first entry whose value equals `v`;
`none` models the IndexError raised by `.index[0]` on an empty selection. -/
def seriesFirstLabel (s : Series) (v : ℚ) : Option Nat :=
  ((s.filter (fun p => decide (p.2 = v))).head?).map Prod.fst

/-- `s.find` by label (used by the general branch of pandas alignment). -/
def lookupLabel (s : Series) (l : Nat) : Option ℚ :=
  (s.find? (fun p => decide (p.1 = l))).map Prod.snd

/-- `s.find` by label on a NaN-able series. -/
def lookupLabelN (s : SeriesN) (l : Nat) : Option (Option ℚ) :=
  (s.find? (fun p => decide (p.1 = l))).map Prod.snd

/-- Insertion into a sorted list of labels. -/
def insSorted (x : Nat) : List Nat → List Nat
  | [] => [x]
  | y :: ys => if x ≤ y then x :: y :: ys else y :: insSorted x ys

/-- Sort a list of labels ascending (pandas sorts the union of unequal indexes). -/
def sortLabels (l : List Nat) : List Nat := l.foldr insSorted []

/-- Pandas subtraction `a - b` of two Series: if the two indexes coincide the
result is pointwise in that order; otherwise the result is indexed by the
sorted union of labels, with NaN wherever a label is missing on either side. -/
def pandasSub (a : SeriesN) (b : Series) : SeriesN :=
  if a.map Prod.fst = b.map Prod.fst then
    (a.zip b).map (fun p => (p.1.1, match p.1.2 with
      | some x => some (x - p.2.2)
      | none => none))
  else
    let ls := sortLabels ((a.map Prod.fst ++ b.map Prod.fst).dedup)
    ls.map (fun l => (l, match lookupLabelN a l, lookupLabel b l with
      | some (some x), some y => some (x - y)
      | _, _ => none))

/-- Pandas `.sum()` over possibly-NaN values: NaN entries are skipped, the
empty sum is 0. -/
def optSum (xs : List (Option ℚ)) : ℚ := xs.foldr (fun a acc => a.getD 0 + acc) 0

/-- Python `s.iloc[i]` on a list, with negative indices counting from the end.
Out-of-range access (only possible for an empty series here) yields 0. -/
def pyIlocQ (xs : List ℚ) (i : Int) : ℚ :=
  if i < 0 then (xs.get? (xs.length - (-i).toNat)).getD 0
  else (xs.get? i.toNat).getD 0

/-- The `__init__` cutoff scan: index of the first HT sample strictly above
`ht_max` (`for position, ht in enumerate(...): if ht>ht_max: ...; break`). -/
def firstExceed (ht_max : ℚ) : List ℚ → Option Nat
  | [] => none
  | h :: t => if ht_max < h then some 0 else (firstExceed ht_max t).map (· + 1)

/-- `position_cutoff`: the loop's result, defaulting to `len(self.wavelength)`
when no HT sample exceeds the threshold. -/
def cutoffPosition (ht_max : ℚ) (wl_len : Nat) (ht : List ℚ) : Nat :=
  match firstExceed ht_max ht with
  | some k => k
  | none => wl_len

/-- In-memory state of a `cd_spectra` record (cd_library.py, class cd_spectra).
`integral` and `smoothed` model the attributes set later by `integrate` and
`smooth` (absent, i.e. `none`, until then). -/
structure cd_spectra where
  wavelength_raw : List ℚ
  ellipticity_raw : List ℚ
  ht : List ℚ
  wavelength : Series
  ellipticity : SeriesN
  wv_min : ℚ
  wv_max : ℚ
  idx_cutoff : Int
  wv_cutoff : ℚ
  filtered : Bool
  corrected : Bool
  wv_delta : ℚ
  integral : Option ℚ
  smoothed : Option (List (Option ℚ))
  deriving Repr, DecidableEq

/-- `cd_spectra.__init__`, taking the columns the csv collaborator parsed out
of the data section (`Wavelength [nm]`, `CD [mdeg]`, `HT [V]`) and the
`Data pitch` metadata value.  Call sites use `ht_max = 600` by default. -/
def cd_spectra.init (wl cd ht : List ℚ) (wv_delta ht_max : ℚ) : cd_spectra :=
  let pc : Nat := cutoffPosition ht_max wl.length ht
  { wavelength_raw := wl
    ellipticity_raw := cd
    ht := ht
    wavelength := Series.ofList wl
    ellipticity := SeriesN.ofList cd
    wv_min := pyIlocQ wl (-1)
    wv_max := pyIlocQ wl 0
    idx_cutoff := (pc : Int) - 1
    wv_cutoff := pyIlocQ wl ((pc : Int) - 1)
    filtered := false
    corrected := false
    wv_delta := wv_delta
    integral := none
    smoothed := none }

/-- `cd_spectra.ht_filter`: truncate ellipticity and wavelength with
`iloc[:idx_cutoff+1]` and set the flag; a second call only prints. -/
def cd_spectra.ht_filter (r : cd_spectra) : cd_spectra :=
  if r.filtered then r
  else
    { r with
      ellipticity := r.ellipticity.take (r.idx_cutoff + 1).toNat
      wavelength := r.wavelength.take (r.idx_cutoff + 1).toNat
      filtered := true }

/-- `cd_spectra.baseline`: given the blank file's parsed `Wavelength [nm]` and
`CD [mdeg]` columns, select the blank rows whose wavelength lies in
`[wv_cutoff-or-wv_min, wv_max]`, reassign `wavelength` to that selection and
subtract the selected blank CD series from `ellipticity` (pandas alignment);
a second call after `corrected` is set only prints. -/
def cd_spectra.baseline (r : cd_spectra) (blank_wl blank_cd : List ℚ) : cd_spectra :=
  if r.corrected then r
  else
    let wv_lo := if r.filtered then r.wv_cutoff else r.wv_min
    let sel := (blank_wl.zip blank_cd).enum.filter
      (fun p => decide (wv_lo ≤ p.2.1) && decide (p.2.1 ≤ r.wv_max))
    { r with
      wavelength := sel.map (fun p => (p.1, p.2.1))
      ellipticity := pandasSub r.ellipticity (sel.map (fun p => (p.1, p.2.2)))
      corrected := true }

/-- `cd_spectra.smooth`: delegate to the external Savitzky-Golay collaborator
`sg` on the current ellipticity values; stores the result, never `ellipticity`. -/
def cd_spectra.smooth (r : cd_spectra)
    (sg : List (Option ℚ) → Nat → Nat → List (Option ℚ)) (wdw polyorder : Nat) :
    cd_spectra :=
  { r with smoothed := some (sg (r.ellipticity.map Prod.snd) wdw polyorder) }

/-- `cd_spectra.mre`: divide every ellipticity value by
`10*concentration*aa_number*pathlength`, with no validation whatsoever. -/
def cd_spectra.mre (r : cd_spectra) (concentration aa_number pathlength : ℚ) :
    cd_spectra :=
  { r with
    ellipticity := r.ellipticity.map
      (fun p => (p.1, p.2.map (· / (10 * concentration * aa_number * pathlength)))) }

/-- `cd_spectra.integrate`: look up the labels of the two bounds in
`wavelength` (raising, i.e. `none`, when a bound has no exact match), slice
`ellipticity` positionally over `iloc[upper_label : lower_label + 1]`, and
store `wv_delta` times the NaN-skipping sum as `integral`. -/
def cd_spectra.integrate (r : cd_spectra) (wv_limit_lower wv_limit_upper : ℚ) :
    Option cd_spectra :=
  match seriesFirstLabel r.wavelength wv_limit_upper,
        seriesFirstLabel r.wavelength wv_limit_lower with
  | some u, some l =>
      some { r with
        integral := some (r.wv_delta *
          optSum (((r.ellipticity.drop u).take (l + 1 - u)).map Prod.snd)) }
  | _, _ => none

/-- Python exceptions that the methods of abs_library.py can raise. -/
inductive PyErr where
  /-- NameError / UnboundLocalError: a local (`start`, `end`) referenced
  before assignment. -/
  | nameError
  /-- AttributeError: `self.nm` is referenced but never assigned anywhere. -/
  | attributeError
  /-- TypeError: `open(None)`. -/
  | typeError
  deriving Repr, DecidableEq

/-- In-memory state of an `abs_spectra` record (abs_library.py).
`concentration` models the attribute `concentration_calc` would set. -/
structure abs_spectra where
  wavelength : Series
  abs_raw : List ℚ
  abs : SeriesN
  wv_min : ℚ
  wv_max : ℚ
  corrected : Bool
  wv_delta : ℚ
  integral : Option ℚ
  smoothed : Option (List (Option ℚ))
  concentration : Option ℚ
  deriving Repr, DecidableEq

/-- `abs_spectra.__init__` from the parsed `Wavelength [nm]` and `Abs [UA]`
columns and the `Data pitch` metadata value. -/
def abs_spectra.init (wl ab : List ℚ) (wv_delta : ℚ) : abs_spectra :=
  { wavelength := Series.ofList wl
    abs_raw := ab
    abs := SeriesN.ofList ab
    wv_min := pyIlocQ wl (-1)
    wv_max := pyIlocQ wl 0
    corrected := false
    wv_delta := wv_delta
    integral := none
    smoothed := none
    concentration := none }

/-- `abs_spectra.baseline(baseline_path, nm)`.  Its conditionals are inverted
(`if not baseline_path` guards the file branch, `if not nm` guards the
fixed-value branch), so: with a path given the file branch is skipped and the
`nm` branch dereferences the never-assigned `self.nm` (AttributeError) unless
`nm` is also given (then it only prints); with no path it reaches
`open(None)` (TypeError) unless `corrected` is already set.  No call path
ever mutates the record. -/
def abs_spectra.baseline (r : abs_spectra)
    (baseline_path : Option (List ℚ × List ℚ)) (nm : Option ℚ) :
    Except PyErr abs_spectra :=
  match baseline_path with
  | some _ =>
      match nm with
      | none => Except.error PyErr.attributeError
      | some _ => Except.ok r
  | none =>
      if r.corrected then
        match nm with
        | none => Except.error PyErr.attributeError
        | some _ => Except.ok r
      else Except.error PyErr.typeError

/-- `abs_spectra.smooth`: delegate to the external collaborator. -/
def abs_spectra.smooth (r : abs_spectra)
    (sg : List (Option ℚ) → Nat → Nat → List (Option ℚ)) (wdw polyorder : Nat) :
    abs_spectra :=
  { r with smoothed := some (sg (r.abs.map Prod.snd) wdw polyorder) }

/-- `abs_spectra.concentration_calc`: its first statement
`idx = self.nm[self.wavelength == wv].index` dereferences `self.nm`, an
attribute that is never assigned anywhere in the class, so every call raises
AttributeError before computing or storing anything. -/
def abs_spectra.concentration_calc (_r : abs_spectra)
    (_wv _molar_extinction_coeff _pathlength : ℚ) : Except PyErr abs_spectra :=
  Except.error PyErr.attributeError

/-- `abs_spectra.integrate`: identical logic to `cd_spectra.integrate` on the
`abs` series. -/
def abs_spectra.integrate (r : abs_spectra) (wv_limit_lower wv_limit_upper : ℚ) :
    Option abs_spectra :=
  match seriesFirstLabel r.wavelength wv_limit_upper,
        seriesFirstLabel r.wavelength wv_limit_lower with
  | some u, some l =>
      some { r with
        integral := some (r.wv_delta *
          optSum (((r.abs.drop u).take (l + 1 - u)).map Prod.snd)) }
  | _, _ => none

/-! ### The sentinel scan of `__init__` -/

/-- One raw line of the csv file, as the list of its cells. -/
abbrev Line := List String

/-- The common shape of the `__init__` scan loops: per enumerated line, a
title line is skipped, a line containing the start sentinel cell (re)assigns
`start := position+1`, otherwise a line containing the end sentinel cell
assigns `end := position-1` and breaks.  Returns the final values of the loop
locals `start` and `end` (`none` = referenced-before-assignment). -/
def scanLoop (isTitle : Nat → Line → Bool) (startTok endTok : String) :
    List Line → Nat → Option Nat → Option Nat × Option Nat
  | [], _, st => (st, none)
  | l :: ls, pos, st =>
    if isTitle pos l then scanLoop isTitle startTok endTok ls (pos + 1) st
    else if l.contains startTok then
      scanLoop isTitle startTok endTok ls (pos + 1) (some (pos + 1))
    else if l.contains endTok then (st, some (pos - 1))
    else scanLoop isTitle startTok endTok ls (pos + 1) st

/-- The scan of `cd_spectra.__init__` / `abs_spectra.__init__`: line 0 is the
title line, `XYDATA` starts the data section, `##### Extended Information`
ends it. -/
def scanXY (lines : List Line) : Option Nat × Option Nat :=
  scanLoop (fun pos _ => pos == 0) "XYDATA" "##### Extended Information" lines 0 none

/-- Contiguous sublist test, for Python's substring `in`. -/
def listIsInfix [BEq α] (pat : List α) : List α → Bool
  | [] => pat.isEmpty
  | a :: as => pat.isPrefixOf (a :: as) || listIsInfix pat as

/-- Substring test used for `'TITLE' in line[0]`. -/
def strContains (s pat : String) : Bool := listIsInfix pat.data s.data

/-- The scan of `cd_melting_spectra.__init__`: a line whose first cell
contains `TITLE` is a title line, `Channel 1` starts the ellipticity grid,
`Channel 2` ends it. -/
def scanGrid (lines : List Line) : Option Nat × Option Nat :=
  scanLoop (fun _ l => strContains ((l.head?).getD "") "TITLE")
    "Channel 1" "Channel 2" lines 0 none

/-- `cd_spectra` construction from the raw file: run the scan; if either
`start` or `end` ends up unbound the subsequent `pd.read_csv(..., nrows=start)`
/ `nrows=(end-start)` raises NameError and no record is returned.  Otherwise
the csv collaborator `readData` extracts the three data columns and the
`Data pitch` value for the found bounds. -/
def cd_spectra.fromFile (lines : List Line)
    (readData : Nat → Nat → (List ℚ × List ℚ × List ℚ) × ℚ) (ht_max : ℚ) :
    Except PyErr cd_spectra :=
  match scanXY lines with
  | (some s, some e) =>
      let d := readData s e
      Except.ok (cd_spectra.init d.1.1 d.1.2.1 d.1.2.2 d.2 ht_max)
  | _ => Except.error PyErr.nameError

/-- `abs_spectra` construction from the raw file (same scan as `cd_spectra`). -/
def abs_spectra.fromFile (lines : List Line)
    (readData : Nat → Nat → (List ℚ × List ℚ) × ℚ) :
    Except PyErr abs_spectra :=
  match scanXY lines with
  | (some s, some e) =>
      let d := readData s e
      Except.ok (abs_spectra.init d.1.1 d.1.2 d.2)
  | _ => Except.error PyErr.nameError

/-! ### The 2-D melt-spectra record -/

/-- One long-form row of `cd_melting_spectra.data` after the melt/merge:
`(Wavelength [nm], Temperature, CD_raw [mdeg], HT [V], CD_filtered [mdeg])`;
`cd_filtered` is NaN (`none`) where HT exceeded the threshold. -/
structure MeltRow where
  wavelength : ℚ
  temperature : String
  cd_raw : ℚ
  ht : ℚ
  cd_filtered : Option ℚ
  deriving Repr, DecidableEq

/-- In-memory state of a `cd_melting_spectra` record.  `cd_mre` models the
`CD_mre [deg.cm2.dmol-1]` column added by `mre` (empty until then), aligned
positionally with `data`. -/
structure cd_melting_spectra where
  wv_delta : ℚ
  wavelength : List ℚ
  temperatures : List String
  data : List MeltRow
  cd_mre : List (Option ℚ)
  mre_transformation : Bool
  integrals : Option (List ℚ)
  deriving Repr, DecidableEq

/-- `cd_melting_spectra.__init__` from the parsed grid: `wls` is the
wavelength index, `cols` the CD grid as (temperature label, column) pairs in
column order, `htCols` the HT grid columns.  `melt` stacks column by column,
the merge is positional, and `CD_filtered` is the raw CD where `HT <= ht_max`
and NaN elsewhere. -/
def cd_melting_spectra.init (wls : List ℚ) (cols : List (String × List ℚ))
    (htCols : List (List ℚ)) (wv_delta ht_max : ℚ) : cd_melting_spectra :=
  { wv_delta := wv_delta
    wavelength := wls
    temperatures := cols.map Prod.fst
    data := (cols.zip htCols).flatMap (fun c =>
      (wls.zip (c.1.2.zip c.2)).map (fun w =>
        { wavelength := w.1
          temperature := c.1.1
          cd_raw := w.2.1
          ht := w.2.2
          cd_filtered := if w.2.2 ≤ ht_max then some w.2.1 else none }))
    cd_mre := []
    mre_transformation := false
    integrals := none }

/-- `cd_melting_spectra.mre`: add the mre column (`CD_filtered` divided by
`10*concentration*aa_number*pathlength`, NaN propagating) and set the flag;
no validation of the parameters. -/
def cd_melting_spectra.mre (r : cd_melting_spectra)
    (concentration aa_number pathlength : ℚ) : cd_melting_spectra :=
  { r with
    cd_mre := r.data.map (fun row =>
      row.cd_filtered.map (· / (10 * concentration * aa_number * pathlength)))
    mre_transformation := true }

/-- The active signal column of a melt record: the mre column once `mre` has
been applied, the HT-filtered column otherwise. -/
def cd_melting_spectra.column (r : cd_melting_spectra) : List (Option ℚ) :=
  if r.mre_transformation then r.cd_mre else r.data.map (·.cd_filtered)

/-- `cd_melting_spectra.integrate`: one Riemann sum per entry of
`temperatures`, in order; each sums the active column over the rows whose
`Temperature` equals the label and whose wavelength lies in
`[wv_limit_lower, wv_limit_upper]`, scaled by `wv_delta`. -/
def cd_melting_spectra.integrate (r : cd_melting_spectra)
    (wv_limit_lower wv_limit_upper : ℚ) : cd_melting_spectra :=
  { r with
    integrals := some (r.temperatures.map (fun t =>
      r.wv_delta * optSum (((r.data.zip r.column).filter (fun q =>
        decide (q.1.temperature = t) && decide (q.1.wavelength ≤ wv_limit_upper)
          && decide (wv_limit_lower ≤ q.1.wavelength))).map Prod.snd))) }

/-! ### Helper lemmas -/

theorem enumFrom_take (l : List α) :
    ∀ (n k : Nat), List.enumFrom n (l.take k) = (List.enumFrom n l).take k := by
  induction l with
  | nil => intro n k; simp
  | cons x t ih =>
    intro n k
    cases k with
    | zero => simp
    | succ k => simp [List.enumFrom, ih (n + 1) k]

theorem seriesN_ofList_take (l : List ℚ) (k : Nat) :
    (SeriesN.ofList l).take k = SeriesN.ofList (l.take k) := by
  unfold SeriesN.ofList List.enum
  rw [enumFrom_take, List.map_take]

theorem series_ofList_take (l : List ℚ) (k : Nat) :
    (Series.ofList l).take k = Series.ofList (l.take k) := by
  unfold Series.ofList List.enum
  rw [enumFrom_take]

theorem firstExceed_none (m : ℚ) (l : List ℚ) (h : ∀ x ∈ l, x ≤ m) :
    firstExceed m l = none := by
  induction l with
  | nil => rfl
  | cons x t ih =>
    have hx : ¬ m < x := not_lt.mpr (h x (List.mem_cons_self x t))
    simp only [firstExceed, if_neg hx]
    rw [ih (fun y hy => h y (List.mem_cons_of_mem x hy))]
    rfl

theorem firstExceed_some (m : ℚ) (l : List ℚ) :
    ∀ (k : Nat) (hk : k < l.length), m < l.get ⟨k, hk⟩ →
      (∀ i (hi : i < k), l.get ⟨i, Nat.lt_trans hi hk⟩ ≤ m) →
      firstExceed m l = some k := by
  induction l with
  | nil => intro k hk; exact absurd hk (Nat.not_lt_zero k)
  | cons x t ih =>
    intro k hk hgt hle
    cases k with
    | zero =>
      simp only [List.get] at hgt
      simp [firstExceed, hgt]
    | succ k =>
      have hx : x ≤ m := by
        have := hle 0 (Nat.succ_pos k)
        simpa using this
      have hrec := ih k (Nat.lt_of_succ_lt_succ hk) (by simpa using hgt)
        (fun i hi => by
          have := hle (i + 1) (Nat.succ_lt_succ hi)
          simpa using this)
      simp [firstExceed, not_lt.mpr hx, hrec]

theorem firstExceed_lt_length (m : ℚ) (l : List ℚ) :
    ∀ k, firstExceed m l = some k → k < l.length := by
  induction l with
  | nil => intro k h; exact absurd h (by simp [firstExceed])
  | cons x t ih =>
    intro k h
    by_cases hx : m < x
    · simp [firstExceed, hx] at h
      subst h; exact Nat.succ_pos _
    · simp [firstExceed, hx] at h
      obtain ⟨j, hj, rfl⟩ := h
      exact Nat.succ_lt_succ (ih j hj)

theorem cutoffPosition_le (m : ℚ) (n : Nat) (ht : List ℚ) (h : ht.length = n) :
    cutoffPosition m n ht ≤ n := by
  unfold cutoffPosition
  cases hfe : firstExceed m ht with
  | none => exact le_rfl
  | some k => exact le_of_lt (h ▸ firstExceed_lt_length m ht k hfe)

theorem cd_init_idx_cutoff (wl cd ht : List ℚ) (δ hm : ℚ) :
    (cd_spectra.init wl cd ht δ hm).idx_cutoff
      = (cutoffPosition hm wl.length ht : Int) - 1 := rfl

/-! ### Claims -/

/-- C2: `ht_filter` applied twice yields the same record state as applied
once, and a second `baseline` invocation after the corrected flag was set by
the first is likewise a no-op: every attribute of the record is unchanged
(the second call only prints a diagnostic, which is not modelled). -/
theorem claim_C2_idempotent_refilter_rebaseline (r : cd_spectra)
    (blank_wl blank_cd : List ℚ) :
    r.ht_filter.ht_filter = r.ht_filter ∧
    (r.baseline blank_wl blank_cd).baseline blank_wl blank_cd
      = r.baseline blank_wl blank_cd := by
  constructor
  · by_cases hf : r.filtered
    · simp [cd_spectra.ht_filter, hf]
    · simp [cd_spectra.ht_filter, hf]
  · by_cases hc : r.corrected
    · simp [cd_spectra.baseline, hc]
    · simp [cd_spectra.baseline, hc]

/-- C1: the constructor eagerly sets `idx_cutoff` to (first index at which HT
strictly exceeds `ht_max`) minus 1, and to the last index of the domain when
no HT sample exceeds `ht_max`; the first `ht_filter()` call then truncates
ellipticity and wavelength to the indices `[0, idx_cutoff]` inclusive (length
`idx_cutoff + 1`) and sets the `filtered` flag.  The lists are the columns of
one parsed data section, hence of equal length. -/
theorem claim_C1_cutoff_and_first_filter (wl cd ht : List ℚ) (δ hm : ℚ)
    (hcd : cd.length = wl.length) (hht : ht.length = wl.length) :
    ((∀ x ∈ ht, x ≤ hm) →
       (cd_spectra.init wl cd ht δ hm).idx_cutoff = (wl.length : Int) - 1) ∧
    (∀ k (hk : k < ht.length), hm < ht.get ⟨k, hk⟩ →
       (∀ i (hi : i < k), ht.get ⟨i, Nat.lt_trans hi hk⟩ ≤ hm) →
       (cd_spectra.init wl cd ht δ hm).idx_cutoff = (k : Int) - 1) ∧
    ((cd_spectra.init wl cd ht δ hm).ht_filter).filtered = true ∧
    ((cd_spectra.init wl cd ht δ hm).ht_filter).ellipticity
      = SeriesN.ofList (cd.take ((cd_spectra.init wl cd ht δ hm).idx_cutoff + 1).toNat) ∧
    ((cd_spectra.init wl cd ht δ hm).ht_filter).wavelength
      = Series.ofList (wl.take ((cd_spectra.init wl cd ht δ hm).idx_cutoff + 1).toNat) ∧
    (((cd_spectra.init wl cd ht δ hm).ht_filter).ellipticity.length : Int)
      = (cd_spectra.init wl cd ht δ hm).idx_cutoff + 1 ∧
    (((cd_spectra.init wl cd ht δ hm).ht_filter).wavelength.length : Int)
      = (cd_spectra.init wl cd ht δ hm).idx_cutoff + 1 := by
  have hpc : cutoffPosition hm wl.length ht ≤ wl.length :=
    cutoffPosition_le hm wl.length ht hht
  have htoNat : ((cd_spectra.init wl cd ht δ hm).idx_cutoff + 1).toNat
      = cutoffPosition hm wl.length ht := by
    rw [cd_init_idx_cutoff]
    simp
  refine ⟨?_, ?_, ?_, ?_, ?_, ?_, ?_⟩
  · intro hall
    rw [cd_init_idx_cutoff]
    unfold cutoffPosition
    rw [firstExceed_none hm ht hall]
  · intro k hk hgt hle
    rw [cd_init_idx_cutoff]
    unfold cutoffPosition
    rw [firstExceed_some hm ht k hk hgt hle]
  · simp [cd_spectra.ht_filter, cd_spectra.init]
  · have tn : ((cutoffPosition hm wl.length ht : Int) - 1 + 1).toNat
        = cutoffPosition hm wl.length ht := by omega
    simp [cd_spectra.ht_filter, cd_spectra.init, tn, seriesN_ofList_take]
  · have tn : ((cutoffPosition hm wl.length ht : Int) - 1 + 1).toNat
        = cutoffPosition hm wl.length ht := by omega
    simp [cd_spectra.ht_filter, cd_spectra.init, tn, series_ofList_take]
  · have tn : ((cutoffPosition hm wl.length ht : Int) - 1 + 1).toNat
        = cutoffPosition hm wl.length ht := by omega
    have hmin : min (cutoffPosition hm wl.length ht) cd.length
        = cutoffPosition hm wl.length ht := min_eq_left (hcd ▸ hpc)
    simp [cd_spectra.ht_filter, cd_spectra.init, tn, SeriesN.ofList,
      List.length_take, hmin]
  · have tn : ((cutoffPosition hm wl.length ht : Int) - 1 + 1).toNat
        = cutoffPosition hm wl.length ht := by omega
    have hmin : min (cutoffPosition hm wl.length ht) wl.length
        = cutoffPosition hm wl.length ht := min_eq_left hpc
    simp [cd_spectra.ht_filter, cd_spectra.init, tn, Series.ofList,
      List.length_take, hmin]

/-- Witness for C1: HT exceeds 600 first at index 1, so the cutoff index is 0
and the first filter call truncates both series to length 1. -/
theorem claim_C1_witness :
    ((∀ x ∈ [(100 : ℚ), 700, 50], x ≤ 600) →
       (cd_spectra.init [3, 2, 1] [5, 6, 7] [100, 700, 50] 1 600).idx_cutoff
         = (([(3 : ℚ), 2, 1].length : Nat) : Int) - 1) ∧
    (∀ k (hk : k < [(100 : ℚ), 700, 50].length),
       (600 : ℚ) < [(100 : ℚ), 700, 50].get ⟨k, hk⟩ →
       (∀ i (hi : i < k), [(100 : ℚ), 700, 50].get ⟨i, Nat.lt_trans hi hk⟩ ≤ 600) →
       (cd_spectra.init [3, 2, 1] [5, 6, 7] [100, 700, 50] 1 600).idx_cutoff
         = (k : Int) - 1) ∧
    ((cd_spectra.init [3, 2, 1] [5, 6, 7] [100, 700, 50] 1 600).ht_filter).filtered
      = true ∧
    ((cd_spectra.init [3, 2, 1] [5, 6, 7] [100, 700, 50] 1 600).ht_filter).ellipticity
      = SeriesN.ofList ([(5 : ℚ), 6, 7].take
          ((cd_spectra.init [3, 2, 1] [5, 6, 7] [100, 700, 50] 1 600).idx_cutoff
            + 1).toNat) ∧
    ((cd_spectra.init [3, 2, 1] [5, 6, 7] [100, 700, 50] 1 600).ht_filter).wavelength
      = Series.ofList ([(3 : ℚ), 2, 1].take
          ((cd_spectra.init [3, 2, 1] [5, 6, 7] [100, 700, 50] 1 600).idx_cutoff
            + 1).toNat) ∧
    (((cd_spectra.init [3, 2, 1] [5, 6, 7] [100, 700, 50] 1 600).ht_filter).ellipticity.length : Int)
      = (cd_spectra.init [3, 2, 1] [5, 6, 7] [100, 700, 50] 1 600).idx_cutoff + 1 ∧
    (((cd_spectra.init [3, 2, 1] [5, 6, 7] [100, 700, 50] 1 600).ht_filter).wavelength.length : Int)
      = (cd_spectra.init [3, 2, 1] [5, 6, 7] [100, 700, 50] 1 600).idx_cutoff + 1 :=
  claim_C1_cutoff_and_first_filter [3, 2, 1] [5, 6, 7] [100, 700, 50] 1 600 rfl rfl

theorem seriesFirstLabel_ofList_none (l : List ℚ) (v : ℚ) (h : v ∉ l) :
    seriesFirstLabel (Series.ofList l) v = none := by
  unfold seriesFirstLabel Series.ofList
  have hnil : l.enum.filter (fun p => decide (p.2 = v)) = [] := by
    rw [List.filter_eq_nil_iff]
    intro p hp
    have hmem : p.2 ∈ l := (List.enum_map_snd l) ▸ List.mem_map_of_mem Prod.snd hp
    simp only [decide_eq_true_eq]
    intro hv
    exact h (hv ▸ hmem)
  rw [hnil]
  rfl

theorem filter_head_enumFrom (l : List ℚ) :
    ∀ (n : Nat) (v : ℚ) (i : Nat) (h : i < l.length), l.get ⟨i, h⟩ = v →
      (∀ k (hk : k < i), l.get ⟨k, Nat.lt_trans hk h⟩ ≠ v) →
      ((List.enumFrom n l).filter (fun p => decide (p.2 = v))).head?
        = some (n + i, v) := by
  induction l with
  | nil => intro n v i h; exact absurd h (Nat.not_lt_zero i)
  | cons x t ih =>
    intro n v i h hv hfirst
    cases i with
    | zero =>
      simp only [List.get] at hv
      subst hv
      simp [List.enumFrom]
    | succ i =>
      have hx : x ≠ v := by
        have := hfirst 0 (Nat.succ_pos i)
        simpa using this
      have hrec := ih (n + 1) v i (Nat.lt_of_succ_lt_succ h) (by simpa using hv)
        (fun k hk => by
          have := hfirst (k + 1) (Nat.succ_lt_succ hk)
          simpa using this)
      simp only [List.enumFrom, List.filter]
      have : (decide (x = v)) = false := by simpa using hx
      simp only [this]
      rw [hrec]
      congr 2
      omega

theorem seriesFirstLabel_ofList_some (l : List ℚ) (v : ℚ) (i : Nat)
    (h : i < l.length) (hv : l.get ⟨i, h⟩ = v)
    (hfirst : ∀ k (hk : k < i), l.get ⟨k, Nat.lt_trans hk h⟩ ≠ v) :
    seriesFirstLabel (Series.ofList l) v = some i := by
  unfold seriesFirstLabel Series.ofList List.enum
  rw [filter_head_enumFrom l 0 v i h hv hfirst]
  simp

/-- C5: `integrate` on either record class fails (the embedding returns
`none`, modelling the exception raised by `.index[0]` on an empty exact-match
selection) whenever a bound is not exactly present among the domain values,
and the record state is unchanged because the exception propagates before the
`integral` attribute is assigned. -/
theorem claim_C5_integrate_value_not_found (r : cd_spectra) (a : abs_spectra)
    (wlr wla : List ℚ) (lo hi : ℚ)
    (hr : r.wavelength = Series.ofList wlr) (ha : a.wavelength = Series.ofList wla)
    (hror : lo ∉ wlr ∨ hi ∉ wlr) (haor : lo ∉ wla ∨ hi ∉ wla) :
    r.integrate lo hi = none ∧ a.integrate lo hi = none := by
  constructor
  · unfold cd_spectra.integrate
    rw [hr]
    rcases hror with hlo | hhi
    · rw [seriesFirstLabel_ofList_none wlr lo hlo]
      cases seriesFirstLabel (Series.ofList wlr) hi <;> rfl
    · rw [seriesFirstLabel_ofList_none wlr hi hhi]
  · unfold abs_spectra.integrate
    rw [ha]
    rcases haor with hlo | hhi
    · rw [seriesFirstLabel_ofList_none wla lo hlo]
      cases seriesFirstLabel (Series.ofList wla) hi <;> rfl
    · rw [seriesFirstLabel_ofList_none wla hi hhi]

/-- Witness for C5: requesting the bound 5/2, which lies between the sample
points of the domain [3, 2, 1], makes `integrate` fail on both classes. -/
theorem claim_C5_witness :
    (cd_spectra.init [3, 2, 1] [5, 6, 7] [100, 100, 100] 1 600).integrate (5/2) 3
      = none ∧
    (abs_spectra.init [3, 2, 1] [5, 6, 7] 1).integrate (5/2) 3 = none :=
  claim_C5_integrate_value_not_found
    (cd_spectra.init [3, 2, 1] [5, 6, 7] [100, 100, 100] 1 600)
    (abs_spectra.init [3, 2, 1] [5, 6, 7] 1)
    [3, 2, 1] [3, 2, 1] (5/2) 3 rfl rfl
    (Or.inl (by norm_num)) (Or.inl (by norm_num))

/-- C4: on a record whose domain is strictly descending with both bounds
exactly present and `lower < upper`, `integrate(lower, upper)` stores
`wv_delta` times the sum of the current signal over the inclusive index range
from the index of `upper` (position `i`) to the index of `lower` (position
`j`), for both record classes. -/
theorem claim_C4_integrate_descending (r : cd_spectra) (a : abs_spectra)
    (wlv : List ℚ) (lower upper : ℚ)
    (hrw : r.wavelength = Series.ofList wlv) (haw : a.wavelength = Series.ofList wlv)
    (hdesc : wlv.Pairwise (· > ·))
    (i j : Nat) (hi : i < wlv.length) (hj : j < wlv.length)
    (hui : wlv.get ⟨i, hi⟩ = upper) (hlj : wlv.get ⟨j, hj⟩ = lower)
    (_hlt : lower < upper) :
    r.integrate lower upper
      = some { r with integral := some (r.wv_delta *
          optSum (((r.ellipticity.drop i).take (j + 1 - i)).map Prod.snd)) } ∧
    a.integrate lower upper
      = some { a with integral := some (a.wv_delta *
          optSum (((a.abs.drop i).take (j + 1 - i)).map Prod.snd)) } := by
  rw [List.pairwise_iff_get] at hdesc
  have hfu : ∀ k (hk : k < i), wlv.get ⟨k, Nat.lt_trans hk hi⟩ ≠ upper := by
    intro k hk
    have := hdesc ⟨k, Nat.lt_trans hk hi⟩ ⟨i, hi⟩ hk
    rw [hui] at this
    exact ne_of_gt this
  have hfl : ∀ k (hk : k < j), wlv.get ⟨k, Nat.lt_trans hk hj⟩ ≠ lower := by
    intro k hk
    have := hdesc ⟨k, Nat.lt_trans hk hj⟩ ⟨j, hj⟩ hk
    rw [hlj] at this
    exact ne_of_gt this
  have hu := seriesFirstLabel_ofList_some wlv upper i hi hui hfu
  have hl := seriesFirstLabel_ofList_some wlv lower j hj hlj hfl
  constructor
  · unfold cd_spectra.integrate
    rw [hrw, hu, hl]
  · unfold abs_spectra.integrate
    rw [haw, hu, hl]

/-- Witness for C4: on the descending domain [3, 2, 1] with bounds 1 and 3
(positions 0 and 2), `integrate` succeeds and stores the inclusive-range
Riemann sum on both classes. -/
theorem claim_C4_witness :
    (cd_spectra.init [3, 2, 1] [5, 6, 7] [100, 100, 100] 1 600).integrate 1 3
      = some { cd_spectra.init [3, 2, 1] [5, 6, 7] [100, 100, 100] 1 600 with
          integral := some ((cd_spectra.init [3, 2, 1] [5, 6, 7] [100, 100, 100] 1 600).wv_delta *
            optSum ((((cd_spectra.init [3, 2, 1] [5, 6, 7] [100, 100, 100] 1 600).ellipticity.drop 0).take
              (2 + 1 - 0)).map Prod.snd)) } ∧
    (abs_spectra.init [3, 2, 1] [5, 6, 7] 1).integrate 1 3
      = some { abs_spectra.init [3, 2, 1] [5, 6, 7] 1 with
          integral := some ((abs_spectra.init [3, 2, 1] [5, 6, 7] 1).wv_delta *
            optSum ((((abs_spectra.init [3, 2, 1] [5, 6, 7] 1).abs.drop 0).take
              (2 + 1 - 0)).map Prod.snd)) } :=
  claim_C4_integrate_descending
    (cd_spectra.init [3, 2, 1] [5, 6, 7] [100, 100, 100] 1 600)
    (abs_spectra.init [3, 2, 1] [5, 6, 7] 1)
    [3, 2, 1] 1 3 rfl rfl (by norm_num [List.pairwise_cons])
    0 2 (by norm_num) (by norm_num) rfl rfl (by norm_num)

/-- C7 counterexample: the claim says `mre` fails with an
`InvalidParameterError` when a factor is non-positive, but neither
`cd_spectra.mre` nor `cd_melting_spectra.mre` contains any validation or any
raise path (each is a single division statement): called with the
non-positive concentration -1, the operation succeeds and divides the signal
by the negative divisor -10 instead of failing. -/
theorem claim_C7_counterexample :
    ((-1 : ℚ) ≤ 0) ∧
    (cd_spectra.init [3, 2] [10, 20] [100, 100] 1 600).mre (-1) 1 1
      = { cd_spectra.init [3, 2] [10, 20] [100, 100] 1 600 with
          ellipticity := [(0, some (-1)), (1, some (-2))] } := by
  refine ⟨by norm_num, ?_⟩
  simp only [cd_spectra.mre, cd_spectra.init, SeriesN.ofList, List.enum,
    List.enumFrom, List.map]
  norm_num

/-- C7 amended: `mre` performs no parameter validation and never fails; for
any parameters whose divisor `10*concentration*aa_number*pathlength` is
nonzero — including non-positive factors — `cd_spectra.mre` divides every
element of the signal by the divisor in place, leaving every other attribute
unchanged, and `cd_melting_spectra.mre` adds the mre column (the filtered
column divided by the divisor) and sets the flag.  (With a zero divisor the
Python division still does not raise; it produces non-finite values, which
the rational model does not represent, hence the nonzero hypothesis.) -/
theorem claim_C7_amended_mre_unvalidated (r : cd_spectra) (m : cd_melting_spectra)
    (c n p : ℚ) (_hd : 10 * c * n * p ≠ 0) :
    (∀ i, (r.mre c n p).ellipticity.get? i
        = (r.ellipticity.get? i).map (fun q => (q.1, q.2.map (· / (10 * c * n * p))))) ∧
    (r.mre c n p).ellipticity.length = r.ellipticity.length ∧
    (r.mre c n p).wavelength = r.wavelength ∧
    (r.mre c n p).filtered = r.filtered ∧
    (r.mre c n p).corrected = r.corrected ∧
    (r.mre c n p).ellipticity_raw = r.ellipticity_raw ∧
    (m.mre c n p).cd_mre
      = m.data.map (fun row => row.cd_filtered.map (· / (10 * c * n * p))) ∧
    (m.mre c n p).mre_transformation = true := by
  refine ⟨?_, ?_, rfl, rfl, rfl, rfl, rfl, rfl⟩
  · intro i
    simp [cd_spectra.mre, List.get?_eq_getElem?, List.getElem?_map]
  · simp [cd_spectra.mre]

/-- Witness for C7's amended theorem at concentration -1 (a non-positive
factor, divisor -10). -/
theorem claim_C7_witness :
    (∀ i, ((cd_spectra.init [3, 2] [10, 20] [100, 100] 1 600).mre (-1) 1 1).ellipticity.get? i
        = ((cd_spectra.init [3, 2] [10, 20] [100, 100] 1 600).ellipticity.get? i).map
            (fun q => (q.1, q.2.map (· / (10 * (-1) * 1 * 1))))) ∧
    ((cd_spectra.init [3, 2] [10, 20] [100, 100] 1 600).mre (-1) 1 1).ellipticity.length
      = (cd_spectra.init [3, 2] [10, 20] [100, 100] 1 600).ellipticity.length ∧
    ((cd_spectra.init [3, 2] [10, 20] [100, 100] 1 600).mre (-1) 1 1).wavelength
      = (cd_spectra.init [3, 2] [10, 20] [100, 100] 1 600).wavelength ∧
    ((cd_spectra.init [3, 2] [10, 20] [100, 100] 1 600).mre (-1) 1 1).filtered
      = (cd_spectra.init [3, 2] [10, 20] [100, 100] 1 600).filtered ∧
    ((cd_spectra.init [3, 2] [10, 20] [100, 100] 1 600).mre (-1) 1 1).corrected
      = (cd_spectra.init [3, 2] [10, 20] [100, 100] 1 600).corrected ∧
    ((cd_spectra.init [3, 2] [10, 20] [100, 100] 1 600).mre (-1) 1 1).ellipticity_raw
      = (cd_spectra.init [3, 2] [10, 20] [100, 100] 1 600).ellipticity_raw ∧
    ((cd_melting_spectra.init [220] [("25.0", [4])] [[100]] 1 600).mre (-1) 1 1).cd_mre
      = (cd_melting_spectra.init [220] [("25.0", [4])] [[100]] 1 600).data.map
          (fun row => row.cd_filtered.map (· / (10 * (-1) * 1 * 1))) ∧
    ((cd_melting_spectra.init [220] [("25.0", [4])] [[100]] 1 600).mre (-1) 1 1).mre_transformation
      = true :=
  claim_C7_amended_mre_unvalidated
    (cd_spectra.init [3, 2] [10, 20] [100, 100] 1 600)
    (cd_melting_spectra.init [220] [("25.0", [4])] [[100]] 1 600)
    (-1) 1 1 (by norm_num)

/-- C8 (code defect): the claim — and the method's own docstring — say
`concentration_calc(wv, molar_extinction_coeff, pathlength)` stores
`signal_at_wv / (molar_extinction_coeff * pathlength)` as the scalar
`concentration` attribute and fails with a value-not-found error only when
`wv` is absent from the domain.  The code's first statement
`idx = self.nm[self.wavelength == wv].index` dereferences `self.nm`, an
attribute that no method of `abs_spectra` ever assigns, so every call —
here with `wv = 2`, which IS present in the domain — raises AttributeError
before computing anything, and the `concentration` attribute is never set. -/
theorem claim_C8_concentration_calc_always_raises :
    (abs_spectra.init [3, 2, 1] [5, 6, 7] 1).concentration_calc 2 1000 1
      = Except.error PyErr.attributeError ∧
    (abs_spectra.init [3, 2, 1] [5, 6, 7] 1).concentration = none := ⟨rfl, rfl⟩

/-! ### Pipeline operation sequences (for the raw-series invariant) -/

/-- A pipeline operation on a `cd_spectra` record: `ht_filter`, `baseline`
(with the blank's parsed columns), `smooth` (with the external collaborator
and its arguments), `mre`, or `integrate`. -/
inductive CdOp where
  | filt : CdOp
  | base : List ℚ → List ℚ → CdOp
  | smoothOp : (List (Option ℚ) → Nat → Nat → List (Option ℚ)) → Nat → Nat → CdOp
  | mreOp : ℚ → ℚ → ℚ → CdOp
  | integ : ℚ → ℚ → CdOp

/-- Run one `cd_spectra` pipeline operation; an `integrate` that raises
leaves the record as it was. -/
def applyCdOp (r : cd_spectra) : CdOp → cd_spectra
  | CdOp.filt => r.ht_filter
  | CdOp.base bw bc => r.baseline bw bc
  | CdOp.smoothOp sg w q => r.smooth sg w q
  | CdOp.mreOp c n p => r.mre c n p
  | CdOp.integ lo hi => (r.integrate lo hi).getD r

/-- A pipeline operation on an `abs_spectra` record. -/
inductive AbsOp where
  | base : Option (List ℚ × List ℚ) → Option ℚ → AbsOp
  | smoothOp : (List (Option ℚ) → Nat → Nat → List (Option ℚ)) → Nat → Nat → AbsOp
  | conc : ℚ → ℚ → ℚ → AbsOp
  | integ : ℚ → ℚ → AbsOp

/-- Run one `abs_spectra` pipeline operation; operations that raise (both
`baseline` branches, every `concentration_calc` call, `integrate` with a
missing bound) leave the record as it was, since each raises before any
attribute assignment. -/
def applyAbsOp (r : abs_spectra) : AbsOp → abs_spectra
  | AbsOp.base bp nm =>
      match r.baseline bp nm with
      | Except.ok r2 => r2
      | Except.error _ => r
  | AbsOp.smoothOp sg w q => r.smooth sg w q
  | AbsOp.conc wv e pl =>
      match r.concentration_calc wv e pl with
      | Except.ok r2 => r2
      | Except.error _ => r
  | AbsOp.integ lo hi => (r.integrate lo hi).getD r

theorem applyCdOp_preserves_raw (r : cd_spectra) (op : CdOp) :
    (applyCdOp r op).ellipticity_raw = r.ellipticity_raw ∧
    (applyCdOp r op).wavelength_raw = r.wavelength_raw := by
  cases op with
  | filt =>
    by_cases hf : r.filtered <;> simp [applyCdOp, cd_spectra.ht_filter, hf]
  | base bw bc =>
    by_cases hc : r.corrected <;> simp [applyCdOp, cd_spectra.baseline, hc]
  | smoothOp sg w q => exact ⟨rfl, rfl⟩
  | mreOp c n p => exact ⟨rfl, rfl⟩
  | integ lo hi =>
    simp only [applyCdOp]
    unfold cd_spectra.integrate
    cases seriesFirstLabel r.wavelength hi <;>
      cases seriesFirstLabel r.wavelength lo <;> simp

theorem applyAbsOp_preserves_raw (r : abs_spectra) (op : AbsOp) :
    (applyAbsOp r op).abs_raw = r.abs_raw := by
  cases op with
  | base bp nm =>
    cases bp with
    | some b => cases nm <;> simp [applyAbsOp, abs_spectra.baseline]
    | none =>
      by_cases hc : r.corrected
      · cases nm <;> simp [applyAbsOp, abs_spectra.baseline, hc]
      · simp [applyAbsOp, abs_spectra.baseline, hc]
  | smoothOp sg w q => rfl
  | conc wv e pl => rfl
  | integ lo hi =>
    simp only [applyAbsOp]
    unfold abs_spectra.integrate
    cases seriesFirstLabel r.wavelength hi <;>
      cases seriesFirstLabel r.wavelength lo <;> simp

/-- C10: along every sequence of pipeline operations, the raw-series
attributes set at construction (`ellipticity_raw`/`wavelength_raw` for CD
records, `abs_raw` for absorbance records) remain the columns as originally
parsed: every operation rebinds the mutable attributes to freshly computed
series and none writes through to the parsed data. -/
theorem claim_C10_raw_series_preserved (wl cd ht ab : List ℚ) (δc δa hm : ℚ)
    (ops : List CdOp) (aops : List AbsOp) :
    (ops.foldl applyCdOp (cd_spectra.init wl cd ht δc hm)).ellipticity_raw = cd ∧
    (ops.foldl applyCdOp (cd_spectra.init wl cd ht δc hm)).wavelength_raw = wl ∧
    (aops.foldl applyAbsOp (abs_spectra.init wl ab δa)).abs_raw = ab := by
  have hcd : ∀ (l : List CdOp) (r : cd_spectra),
      (l.foldl applyCdOp r).ellipticity_raw = r.ellipticity_raw ∧
      (l.foldl applyCdOp r).wavelength_raw = r.wavelength_raw := by
    intro l
    induction l with
    | nil => intro r; exact ⟨rfl, rfl⟩
    | cons op t ih =>
      intro r
      have h1 := applyCdOp_preserves_raw r op
      have h2 := ih (applyCdOp r op)
      exact ⟨h2.1.trans h1.1, h2.2.trans h1.2⟩
  have hab : ∀ (l : List AbsOp) (r : abs_spectra),
      (l.foldl applyAbsOp r).abs_raw = r.abs_raw := by
    intro l
    induction l with
    | nil => intro r; rfl
    | cons op t ih =>
      intro r
      exact (ih (applyAbsOp r op)).trans (applyAbsOp_preserves_raw r op)
  exact ⟨(hcd ops _).1, (hcd ops _).2, hab aops _⟩

theorem zip_map_filter_snd {α β : Type} (f : α → β) (p : α → Bool) :
    ∀ (l : List α),
      ((l.zip (l.map f)).filter (fun q => p q.1)).map Prod.snd = (l.filter p).map f := by
  intro l
  induction l with
  | nil => rfl
  | cons x t ih =>
    simp only [List.map, List.zip_cons_cons, List.filter]
    cases hp : p x
    · simpa using ih
    · simpa using ih

/-- C9: on a melt-spectra record, `integrate` produces one integral per
temperature label, in the order of the `temperatures` attribute; each is
`wv_delta` times the NaN-skipping sum of the active signal column over the
rows whose `Temperature` equals the label and whose wavelength lies in
`[wv_limit_lower, wv_limit_upper]`.  The active column is the HT-filtered CD
column (raw CD where `HT <= ht_max`, NaN above it — third conjunct) unless
`mre()` was applied first, in which case the mre column is used (fourth
conjunct). -/
theorem claim_C9_melt_integrate (wls : List ℚ) (cols : List (String × List ℚ))
    (htCols : List (List ℚ)) (δ hm lo hi c n p : ℚ) :
    ((cd_melting_spectra.init wls cols htCols δ hm).integrate lo hi).integrals
      = some ((cd_melting_spectra.init wls cols htCols δ hm).temperatures.map
          (fun t => δ * optSum
            ((((cd_melting_spectra.init wls cols htCols δ hm).data.filter (fun row =>
              decide (row.temperature = t) && decide (row.wavelength ≤ hi)
                && decide (lo ≤ row.wavelength))).map (fun row => row.cd_filtered))))) ∧
    (((cd_melting_spectra.init wls cols htCols δ hm).integrate lo hi).integrals.getD []).length
      = (cd_melting_spectra.init wls cols htCols δ hm).temperatures.length ∧
    (∀ i, (((cd_melting_spectra.init wls cols htCols δ hm).data.get? i).map
            (fun row => row.cd_filtered))
        = (((cd_melting_spectra.init wls cols htCols δ hm).data.get? i).map
            (fun row => if row.ht ≤ hm then some row.cd_raw else none))) ∧
    (((cd_melting_spectra.init wls cols htCols δ hm).mre c n p).integrate lo hi).integrals
      = some ((cd_melting_spectra.init wls cols htCols δ hm).temperatures.map
          (fun t => δ * optSum
            ((((cd_melting_spectra.init wls cols htCols δ hm).data.filter (fun row =>
              decide (row.temperature = t) && decide (row.wavelength ≤ hi)
                && decide (lo ≤ row.wavelength))).map (fun row =>
                  row.cd_filtered.map (· / (10 * c * n * p))))))) := by
  refine ⟨?_, ?_, ?_, ?_⟩
  · have hflag : (cd_melting_spectra.init wls cols htCols δ hm).mre_transformation
        = false := rfl
    have hδ : (cd_melting_spectra.init wls cols htCols δ hm).wv_delta = δ := rfl
    simp only [cd_melting_spectra.integrate, cd_melting_spectra.column, hflag,
      Bool.false_eq_true, if_false, hδ]
    congr 1
    apply List.map_congr_left
    intro t _
    have hz := zip_map_filter_snd (fun x => x.cd_filtered)
      (fun row => decide (row.temperature = t) && decide (row.wavelength ≤ hi)
        && decide (lo ≤ row.wavelength))
      (cd_melting_spectra.init wls cols htCols δ hm).data
    rw [hz]
  · simp [cd_melting_spectra.integrate]
  · intro i
    have hmem : ∀ row ∈ (cd_melting_spectra.init wls cols htCols δ hm).data,
        row.cd_filtered = if row.ht ≤ hm then some row.cd_raw else none := by
      intro row hrow
      simp only [cd_melting_spectra.init, List.mem_flatMap, List.mem_map] at hrow
      obtain ⟨cpair, _, w, _, rfl⟩ := hrow
      rfl
    cases hg : (cd_melting_spectra.init wls cols htCols δ hm).data.get? i with
    | none => rfl
    | some row =>
      simp only [Option.map_some']
      rw [hmem row (List.get?_mem hg)]
  · have hflag : ((cd_melting_spectra.init wls cols htCols δ hm).mre c n p).mre_transformation
        = true := rfl
    have hdata : ((cd_melting_spectra.init wls cols htCols δ hm).mre c n p).data
        = (cd_melting_spectra.init wls cols htCols δ hm).data := rfl
    have hmrecol : ((cd_melting_spectra.init wls cols htCols δ hm).mre c n p).cd_mre
        = (cd_melting_spectra.init wls cols htCols δ hm).data.map
            (fun row => row.cd_filtered.map (· / (10 * c * n * p))) := rfl
    have htemps : ((cd_melting_spectra.init wls cols htCols δ hm).mre c n p).temperatures
        = (cd_melting_spectra.init wls cols htCols δ hm).temperatures := rfl
    have hδ : ((cd_melting_spectra.init wls cols htCols δ hm).mre c n p).wv_delta = δ := rfl
    simp only [cd_melting_spectra.integrate, cd_melting_spectra.column, hflag,
      if_true, hdata, hmrecol, htemps, hδ]
    congr 1
    apply List.map_congr_left
    intro t _
    have hz := zip_map_filter_snd (fun row => row.cd_filtered.map (· / (10 * c * n * p)))
      (fun row => decide (row.temperature = t) && decide (row.wavelength ≤ hi)
        && decide (lo ≤ row.wavelength))
      (cd_melting_spectra.init wls cols htCols δ hm).data
    rw [hz]

/-- `cd_melting_spectra` construction from the raw file: run the grid scan;
an unbound `start` or `end` raises before any record is built, otherwise the
csv collaborator `readData` extracts the wavelength index, the CD grid
columns and the HT grid columns, and the `DELTAX` info value. -/
def cd_melting_spectra.fromFile (lines : List Line)
    (readData : Nat → Nat → (List ℚ × List (String × List ℚ) × List (List ℚ)) × ℚ)
    (ht_max : ℚ) : Except PyErr cd_melting_spectra :=
  match scanGrid lines with
  | (some s, some e) =>
      let d := readData s e
      Except.ok (cd_melting_spectra.init d.1.1 d.1.2.1 d.1.2.2 d.2 ht_max)
  | _ => Except.error PyErr.nameError

theorem bool_ne_true {b : Bool} (h : b = false) : ¬ (b = true) := by
  subst h
  exact Bool.false_ne_true

theorem scanLoop_no_start (isTitle : Nat → Line → Bool) (startTok endTok : String)
    (ls : List Line) : ∀ (pos : Nat),
    (∀ l ∈ ls, l.contains startTok = false) →
    (scanLoop isTitle startTok endTok ls pos none).1 = none := by
  induction ls with
  | nil => intro pos _; rfl
  | cons l t ih =>
    intro pos h
    have hl : ¬ (l.contains startTok = true) :=
      bool_ne_true (h l (List.mem_cons_self l t))
    have ht2 : ∀ l2 ∈ t, l2.contains startTok = false :=
      fun l2 hl2 => h l2 (List.mem_cons_of_mem l hl2)
    rw [scanLoop]
    by_cases htitle : isTitle pos l = true
    · rw [if_pos htitle]
      exact ih (pos + 1) ht2
    · rw [if_neg htitle, if_neg hl]
      by_cases hend : l.contains endTok = true
      · rw [if_pos hend]
      · rw [if_neg hend]
        exact ih (pos + 1) ht2

theorem scanLoop_no_break (isTitle : Nat → Line → Bool) (startTok endTok : String)
    (ls : List Line) : ∀ (pos : Nat) (st : Option Nat),
    (∀ l ∈ ls, l.contains endTok = false ∨ l.contains startTok = true) →
    (scanLoop isTitle startTok endTok ls pos st).2 = none := by
  induction ls with
  | nil => intro pos st _; rfl
  | cons l t ih =>
    intro pos st h
    have ht2 : ∀ l2 ∈ t, l2.contains endTok = false ∨ l2.contains startTok = true :=
      fun l2 hl2 => h l2 (List.mem_cons_of_mem l hl2)
    rw [scanLoop]
    by_cases htitle : isTitle pos l = true
    · rw [if_pos htitle]
      exact ih (pos + 1) st ht2
    · rw [if_neg htitle]
      by_cases hstart : l.contains startTok = true
      · rw [if_pos hstart]
        exact ih (pos + 1) _ ht2
      · have hend : ¬ (l.contains endTok = true) := by
          rcases h l (List.mem_cons_self l t) with h1 | h1
          · exact bool_ne_true h1
          · exact absurd h1 hstart
        rw [if_neg hstart, if_neg hend]
        exact ih (pos + 1) st ht2

theorem scanLoop_error (isTitle : Nat → Line → Bool) (startTok endTok : String)
    (ls : List Line) : ∀ (i : Nat) (li : Line) (pos : Nat),
    ls.get? i = some li → li.contains startTok = true →
    (∀ l2 ∈ ls.take i, l2.contains startTok = false) →
    (∀ l2 ∈ ls.drop (i + 1), l2.contains endTok = false) →
    (scanLoop isTitle startTok endTok ls pos none).1 = none ∨
      (scanLoop isTitle startTok endTok ls pos none).2 = none := by
  induction ls with
  | nil => intro i li pos hg; exact absurd hg (by simp)
  | cons l t ih =>
    intro i li pos hg hstart htake hdrop
    cases i with
    | zero =>
      have hl : l = li := by simpa using hg
      subst hl
      refine Or.inr (scanLoop_no_break isTitle startTok endTok (l :: t) pos none ?_)
      intro l2 hl2
      rcases List.mem_cons.mp hl2 with rfl | hl2
      · exact Or.inr hstart
      · exact Or.inl (hdrop l2 (by simpa using hl2))
    | succ i =>
      have hgt : t.get? i = some li := by simpa using hg
      have hlx : ¬ (l.contains startTok = true) := by
        refine bool_ne_true ?_
        apply htake l
        simp [List.take]
      have htaket : ∀ l2 ∈ t.take i, l2.contains startTok = false := by
        intro l2 hl2
        apply htake l2
        simp only [List.take_succ_cons, List.mem_cons]
        exact Or.inr hl2
      have hdropt : ∀ l2 ∈ t.drop (i + 1), l2.contains endTok = false := by
        intro l2 hl2
        exact hdrop l2 (by simpa using hl2)
      rw [scanLoop]
      by_cases htitle : isTitle pos l = true
      · rw [if_pos htitle]
        exact ih i li (pos + 1) hgt hstart htaket hdropt
      · rw [if_neg htitle, if_neg hlx]
        by_cases hend : l.contains endTok = true
        · rw [if_pos hend]
          exact Or.inl rfl
        · rw [if_neg hend]
          exact ih i li (pos + 1) hgt hstart htaket hdropt

theorem cd_fromFile_error_of_scan (lines : List Line)
    (rd : Nat → Nat → (List ℚ × List ℚ × List ℚ) × ℚ) (hm : ℚ)
    (h : (scanXY lines).1 = none ∨ (scanXY lines).2 = none) :
    ∃ e, cd_spectra.fromFile lines rd hm = Except.error e := by
  refine ⟨PyErr.nameError, ?_⟩
  unfold cd_spectra.fromFile
  rcases h with h1 | h2
  · rcases hs : scanXY lines with ⟨a, b⟩
    rw [hs] at h1
    simp only at h1
    subst h1
    cases b <;> rfl
  · rcases hs : scanXY lines with ⟨a, b⟩
    rw [hs] at h2
    simp only at h2
    subst h2
    cases a <;> rfl

theorem abs_fromFile_error_of_scan (lines : List Line)
    (rd : Nat → Nat → (List ℚ × List ℚ) × ℚ)
    (h : (scanXY lines).1 = none ∨ (scanXY lines).2 = none) :
    ∃ e, abs_spectra.fromFile lines rd = Except.error e := by
  refine ⟨PyErr.nameError, ?_⟩
  unfold abs_spectra.fromFile
  rcases h with h1 | h2
  · rcases hs : scanXY lines with ⟨a, b⟩
    rw [hs] at h1
    simp only at h1
    subst h1
    cases b <;> rfl
  · rcases hs : scanXY lines with ⟨a, b⟩
    rw [hs] at h2
    simp only at h2
    subst h2
    cases a <;> rfl

theorem grid_fromFile_error_of_scan (lines : List Line)
    (rd : Nat → Nat → (List ℚ × List (String × List ℚ) × List (List ℚ)) × ℚ) (hm : ℚ)
    (h : (scanGrid lines).1 = none ∨ (scanGrid lines).2 = none) :
    ∃ e, cd_melting_spectra.fromFile lines rd hm = Except.error e := by
  refine ⟨PyErr.nameError, ?_⟩
  unfold cd_melting_spectra.fromFile
  rcases h with h1 | h2
  · rcases hs : scanGrid lines with ⟨a, b⟩
    rw [hs] at h1
    simp only at h1
    subst h1
    cases b <;> rfl
  · rcases hs : scanGrid lines with ⟨a, b⟩
    rw [hs] at h2
    simp only at h2
    subst h2
    cases a <;> rfl

/-- C6: whenever no data-start sentinel occurs in the file (`XYDATA` for the
single-spectrum formats, `Channel 1` for the grid format), or no end sentinel
(`##### Extended Information`, resp. `Channel 2`) occurs after the first
start-sentinel line, construction of the record fails — the scan leaves the
loop local `start` (resp. `end`) unbound and the subsequent `pd.read_csv`
call raises — and no record, in particular no record with an empty data
section, is returned. -/
theorem claim_C6_missing_sentinels_fail (lines glines : List Line)
    (rdc : Nat → Nat → (List ℚ × List ℚ × List ℚ) × ℚ)
    (rda : Nat → Nat → (List ℚ × List ℚ) × ℚ)
    (rdg : Nat → Nat → (List ℚ × List (String × List ℚ) × List (List ℚ)) × ℚ)
    (hm : ℚ)
    (hxy : (∀ l ∈ lines, l.contains "XYDATA" = false) ∨
      (∃ i li, lines.get? i = some li ∧ li.contains "XYDATA" = true ∧
        (∀ l' ∈ lines.take i, l'.contains "XYDATA" = false) ∧
        (∀ l' ∈ lines.drop (i + 1),
          l'.contains "##### Extended Information" = false)))
    (hgr : (∀ l ∈ glines, l.contains "Channel 1" = false) ∨
      (∃ i li, glines.get? i = some li ∧ li.contains "Channel 1" = true ∧
        (∀ l' ∈ glines.take i, l'.contains "Channel 1" = false) ∧
        (∀ l' ∈ glines.drop (i + 1), l'.contains "Channel 2" = false))) :
    (∃ e, cd_spectra.fromFile lines rdc hm = Except.error e) ∧
    (∃ e, abs_spectra.fromFile lines rda = Except.error e) ∧
    (∃ e, cd_melting_spectra.fromFile glines rdg hm = Except.error e) := by
  have hxyscan : (scanXY lines).1 = none ∨ (scanXY lines).2 = none := by
    rcases hxy with h | ⟨i, li, hg, hs, htake, hdrop⟩
    · exact Or.inl (scanLoop_no_start _ _ _ lines 0 h)
    · exact scanLoop_error _ _ _ lines i li 0 hg hs htake hdrop
  have hgscan : (scanGrid glines).1 = none ∨ (scanGrid glines).2 = none := by
    rcases hgr with h | ⟨i, li, hg, hs, htake, hdrop⟩
    · exact Or.inl (scanLoop_no_start _ _ _ glines 0 h)
    · exact scanLoop_error _ _ _ glines i li 0 hg hs htake hdrop
  exact ⟨cd_fromFile_error_of_scan lines rdc hm hxyscan,
    abs_fromFile_error_of_scan lines rda hxyscan,
    grid_fromFile_error_of_scan glines rdg hm hgscan⟩

/-- Witness for C6: a file with no `XYDATA` line (and a grid file with no
`Channel 1` line) makes construction of all three record classes fail. -/
theorem claim_C6_witness :
    (∃ e, cd_spectra.fromFile [["Spectrum", "MyTitle"], ["foo", "bar"]]
        (fun _ _ => (([], [], []), 0)) 600 = Except.error e) ∧
    (∃ e, abs_spectra.fromFile [["Spectrum", "MyTitle"], ["foo", "bar"]]
        (fun _ _ => (([], []), 0)) = Except.error e) ∧
    (∃ e, cd_melting_spectra.fromFile [["TITLE", "MyTitle"], ["foo", "bar"]]
        (fun _ _ => (([], [], []), 0)) 600 = Except.error e) :=
  claim_C6_missing_sentinels_fail
    [["Spectrum", "MyTitle"], ["foo", "bar"]] [["TITLE", "MyTitle"], ["foo", "bar"]]
    (fun _ _ => (([], [], []), 0)) (fun _ _ => (([], []), 0))
    (fun _ _ => (([], [], []), 0)) 600
    (Or.inl (by decide)) (Or.inl (by decide))

theorem filter_eq_take {α : Type} (l : List α) (p : α → Bool) :
    ∀ (k : Nat), k ≤ l.length →
    (∀ i (hi : i < l.length), (p (l.get ⟨i, hi⟩) = true ↔ i < k)) →
    l.filter p = l.take k := by
  induction l with
  | nil => intro k _ _; simp
  | cons x t ih =>
    intro k hk h
    have h0 := h 0 (Nat.succ_pos t.length)
    cases k with
    | zero =>
      have hx : p x = false := by
        rcases hp : p x with _ | _
        · rfl
        · exact absurd (h0.mp hp) (by omega)
      have ht : t.filter p = [] := by
        rw [List.filter_eq_nil_iff]
        intro a ha
        rcases List.mem_iff_get.mp ha with ⟨⟨j, hj⟩, rfl⟩
        intro hpa
        exact absurd ((h (j + 1) (Nat.succ_lt_succ hj)).mp hpa) (by omega)
      simp [List.filter, hx, ht]
    | succ k =>
      have hx : p x = true := h0.mpr (Nat.succ_pos k)
      have hrec := ih k (Nat.le_of_succ_le_succ hk)
        (fun i hi => by
          have := h (i + 1) (Nat.succ_lt_succ hi)
          simpa [Nat.succ_lt_succ_iff] using this)
      simp [List.filter, hx, List.take, hrec]

theorem zip_enumFrom_map_fst (wl : List ℚ) :
    ∀ (bc : List ℚ) (n : Nat), bc.length = wl.length →
    (List.enumFrom n (wl.zip bc)).map (fun p => (p.1, p.2.1)) = List.enumFrom n wl := by
  induction wl with
  | nil => intro bc n _; simp
  | cons w wt ih =>
    intro bc n hlen
    cases bc with
    | nil => exact absurd hlen (by simp)
    | cons b bt =>
      simp only [List.zip_cons_cons, List.enumFrom, List.map]
      exact congrArg (List.cons (n, w)) (ih bt (n + 1) (by simpa using hlen))

theorem zip_enumFrom_map_snd (wl : List ℚ) :
    ∀ (bc : List ℚ) (n : Nat), bc.length = wl.length →
    (List.enumFrom n (wl.zip bc)).map (fun p => (p.1, p.2.2)) = List.enumFrom n bc := by
  induction wl with
  | nil =>
    intro bc n hlen
    rw [List.length_nil, List.length_eq_zero] at hlen
    subst hlen
    simp
  | cons w wt ih =>
    intro bc n hlen
    cases bc with
    | nil => exact absurd hlen (by simp)
    | cons b bt =>
      simp only [List.zip_cons_cons, List.enumFrom, List.map]
      exact congrArg (List.cons (n, b)) (ih bt (n + 1) (by simpa using hlen))

theorem enumFrom_someify_labels (cdl : List ℚ) :
    ∀ (bcl : List ℚ) (n K : Nat), bcl.length = cdl.length →
    (((List.enumFrom n cdl).map (fun p => (p.1, some p.2))).take K).map Prod.fst
      = ((List.enumFrom n bcl).take K).map Prod.fst := by
  induction cdl with
  | nil =>
    intro bcl n K hlen
    rw [List.length_nil, List.length_eq_zero] at hlen
    subst hlen
    simp
  | cons c ct ih =>
    intro bcl n K hlen
    cases bcl with
    | nil => exact absurd hlen (by simp)
    | cons b bt =>
      cases K with
      | zero => simp
      | succ K =>
        simp only [List.enumFrom, List.map, List.take]
        rw [ih bt (n + 1) K (by simpa using hlen)]

theorem pandasSub_zip_eval (cdl : List ℚ) :
    ∀ (bcl : List ℚ) (n K : Nat), bcl.length = cdl.length →
    ((((List.enumFrom n cdl).map (fun p => (p.1, some p.2))).take K).zip
        (((List.enumFrom n bcl)).take K)).map
      (fun p => (p.1.1, match p.1.2 with
        | some x => some (x - p.2.2)
        | none => none))
      = ((List.enumFrom n (List.zipWith (fun a b => a - b) cdl bcl)).map
          (fun p => (p.1, some p.2))).take K := by
  induction cdl with
  | nil =>
    intro bcl n K hlen
    rw [List.length_nil, List.length_eq_zero] at hlen
    subst hlen
    simp
  | cons c ct ih =>
    intro bcl n K hlen
    cases bcl with
    | nil => exact absurd hlen (by simp)
    | cons b bt =>
      cases K with
      | zero => simp
      | succ K =>
        simp only [List.enumFrom, List.map, List.take, List.zipWith,
          List.zip_cons_cons]
        exact congrArg (List.cons (n, some (c - b))) (ih bt (n + 1) K (by simpa using hlen))

theorem pandasSub_aligned (cdl bcl : List ℚ) (K : Nat) (hlen : bcl.length = cdl.length) :
    pandasSub (((List.enumFrom 0 cdl).map (fun p => (p.1, some p.2))).take K)
        ((List.enumFrom 0 bcl).take K)
      = ((List.enumFrom 0 (List.zipWith (fun a b => a - b) cdl bcl)).map
          (fun p => (p.1, some p.2))).take K := by
  unfold pandasSub
  rw [if_pos (enumFrom_someify_labels cdl bcl 0 K hlen)]
  exact pandasSub_zip_eval cdl bcl 0 K hlen

theorem baseline_core (r : cd_spectra) (wl cd bc : List ℚ) (K : Nat)
    (hK1 : 1 ≤ K) (hKn : K ≤ wl.length)
    (hlen_bc : bc.length = wl.length) (hlen_cd : cd.length = wl.length)
    (hdesc : wl.Pairwise (· > ·))
    (hcorr : r.corrected = false)
    (hell : r.ellipticity = (SeriesN.ofList cd).take K)
    (hlo : (if r.filtered then r.wv_cutoff else r.wv_min) = (wl.get? (K - 1)).getD 0)
    (hhi : r.wv_max = (wl.get? 0).getD 0) :
    (r.baseline wl bc).corrected = true ∧
    (r.baseline wl bc).wavelength = Series.ofList (wl.take K) ∧
    (r.baseline wl bc).ellipticity
      = SeriesN.ofList (List.zipWith (fun a b => a - b) (cd.take K) (bc.take K)) := by
  have hn : 0 < wl.length := lt_of_lt_of_le hK1 hKn
  have hK1lt : K - 1 < wl.length := by omega
  have hgetK1 : (wl.get? (K - 1)).getD 0 = wl.get ⟨K - 1, hK1lt⟩ := by
    rw [List.get?_eq_get hK1lt]
    rfl
  have hget0 : (wl.get? 0).getD 0 = wl.get ⟨0, hn⟩ := by
    rw [List.get?_eq_get hn]
    rfl
  rw [List.pairwise_iff_get] at hdesc
  have hzl : (wl.zip bc).length = wl.length := by
    rw [List.length_zip, hlen_bc, min_self]
  have hel : ((wl.zip bc).enum).length = wl.length := by
    rw [List.enum_length, hzl]
  have hchar : ∀ i (hi : i < ((wl.zip bc).enum).length),
      ((fun p => decide ((wl.get? (K - 1)).getD 0 ≤ p.2.1)
          && decide (p.2.1 ≤ (wl.get? 0).getD 0))
        (((wl.zip bc).enum).get ⟨i, hi⟩) = true) ↔ i < K := by
    intro i hi
    have hiw : i < wl.length := hel ▸ hi
    have hib : i < bc.length := by omega
    have hget : (((wl.zip bc).enum).get ⟨i, hi⟩).2.1 = wl.get ⟨i, hiw⟩ := by
      simp [List.enum, List.get_eq_getElem, List.getElem_enumFrom, List.getElem_zip]
    simp only [hget, hgetK1, hget0, Bool.and_eq_true, decide_eq_true_eq]
    constructor
    · rintro ⟨h1, _⟩
      by_contra hiK
      push_neg at hiK
      have hlt : K - 1 < i := by omega
      have := hdesc ⟨K - 1, hK1lt⟩ ⟨i, hiw⟩ hlt
      exact absurd h1 (not_le.mpr this)
    · intro hiK
      constructor
      · rcases Nat.lt_or_ge i (K - 1) with hu | hu
        · exact le_of_lt (hdesc ⟨i, hiw⟩ ⟨K - 1, hK1lt⟩ hu)
        · have : i = K - 1 := by omega
          subst this
          exact le_rfl
      · rcases Nat.eq_zero_or_pos i with rfl | hpos
        · exact le_rfl
        · exact le_of_lt (hdesc ⟨0, hn⟩ ⟨i, hiw⟩ hpos)
  have hfilter : ((wl.zip bc).enum).filter
      (fun p => decide ((wl.get? (K - 1)).getD 0 ≤ p.2.1)
        && decide (p.2.1 ≤ (wl.get? 0).getD 0))
      = ((wl.zip bc).enum).take K :=
    filter_eq_take ((wl.zip bc).enum) _ K (by omega) hchar
  have hbody : r.baseline wl bc = { r with
      wavelength := (((wl.zip bc).enum).take K).map (fun p => (p.1, p.2.1))
      ellipticity := pandasSub r.ellipticity
        ((((wl.zip bc).enum).take K).map (fun p => (p.1, p.2.2)))
      corrected := true } := by
    simp only [cd_spectra.baseline, hcorr, Bool.false_eq_true, if_false, hlo, hhi,
      hfilter]
  refine ⟨by rw [hbody], ?_, ?_⟩
  · rw [hbody]
    show (((wl.zip bc).enum).take K).map (fun p => (p.1, p.2.1))
        = Series.ofList (wl.take K)
    rw [List.map_take]
    rw [show (wl.zip bc).enum = List.enumFrom 0 (wl.zip bc) from rfl]
    rw [zip_enumFrom_map_fst wl bc 0 hlen_bc]
    show (List.enumFrom 0 wl).take K = List.enumFrom 0 (wl.take K)
    exact (enumFrom_take wl 0 K).symm
  · rw [hbody]
    show pandasSub r.ellipticity
        ((((wl.zip bc).enum).take K).map (fun p => (p.1, p.2.2)))
      = SeriesN.ofList (List.zipWith (fun a b => a - b) (cd.take K) (bc.take K))
    rw [hell, List.map_take]
    rw [show (wl.zip bc).enum = List.enumFrom 0 (wl.zip bc) from rfl]
    rw [zip_enumFrom_map_snd wl bc 0 hlen_bc]
    have hlen2 : bc.length = cd.length := by rw [hlen_bc, hlen_cd]
    have halign := pandasSub_aligned cd bc K hlen2
    rw [show SeriesN.ofList cd
        = (List.enumFrom 0 cd).map (fun p => (p.1, some p.2)) from rfl]
    rw [halign]
    rw [← List.take_zipWith]
    show ((List.enumFrom 0 (List.zipWith (fun a b => a - b) cd bc)).map
        (fun p => (p.1, some p.2))).take K
      = SeriesN.ofList ((List.zipWith (fun a b => a - b) cd bc).take K)
    rw [← seriesN_ofList_take]
    rfl

/-- C3 counterexample: the claim quantifies over every CD record not yet
baseline-corrected, but when the very first HT sample exceeds `ht_max` the
HT-filtered ellipticity is empty (first conjunct) while `wv_cutoff` wraps via
`iloc[-1]` to the last wavelength, so the blank selection covers the whole
domain; the pandas subtraction then union-aligns the empty series with the
three selected labels and produces a full-length all-NaN series (second
conjunct) — not the claimed subtraction index-aligned by position within the
overlapping range, which would be the empty positional difference of the
truncated ellipticity and the restricted blank (third conjunct: the code's
result differs from that formalized conclusion). -/
theorem claim_C3_counterexample :
    (((cd_spectra.init [3, 2, 1] [5, 6, 7] [700, 100, 100] 1 600).ht_filter).ellipticity
      = []) ∧
    ((((cd_spectra.init [3, 2, 1] [5, 6, 7] [700, 100, 100] 1 600).ht_filter).baseline
        [3, 2, 1] [1, 1, 1]).ellipticity
      = [(0, none), (1, none), (2, none)]) ∧
    ((((cd_spectra.init [3, 2, 1] [5, 6, 7] [700, 100, 100] 1 600).ht_filter).baseline
        [3, 2, 1] [1, 1, 1]).ellipticity
      ≠ SeriesN.ofList (List.zipWith (fun a b => a - b)
          ([(5 : ℚ), 6, 7].take
            (cutoffPosition 600 [(3 : ℚ), 2, 1].length [700, 100, 100]))
          ([(1 : ℚ), 1, 1].take
            (cutoffPosition 600 [(3 : ℚ), 2, 1].length [700, 100, 100])))) := by
  refine ⟨by decide, by decide, by decide⟩

/-- C3 as amended: for a CD record not yet baseline-corrected and a blank
parsed over the same (strictly descending) domain, and provided that when the
record has been HT-filtered its truncated series is nonempty (the first HT
sample is within `ht_max`, hypothesis `0 < cutoffPosition` — otherwise the
pandas subtraction union-aligns and yields a full-length all-NaN series, see
the counterexample above), `baseline` subtracts the blank's CD series from
the ellipticity index-aligned by position within the overlapping domain
range — the whole domain `[wv_min, wv_max]` when the record is unfiltered,
and `[wv_cutoff, wv_max]` (the first `cutoffPosition` samples) when it has
been HT-filtered — reassigns `wavelength` to the blank's wavelengths
restricted to that range, and sets the `corrected` flag. -/
theorem claim_C3_baseline_subtraction (wl cd ht bc : List ℚ) (δ hm : ℚ)
    (hlen_cd : cd.length = wl.length) (hlen_ht : ht.length = wl.length)
    (hlen_bc : bc.length = wl.length)
    (hdesc : wl.Pairwise (· > ·)) (hne : 0 < wl.length)
    (hpc : 0 < cutoffPosition hm wl.length ht) :
    (((cd_spectra.init wl cd ht δ hm).baseline wl bc).corrected = true ∧
     ((cd_spectra.init wl cd ht δ hm).baseline wl bc).wavelength
       = Series.ofList wl ∧
     ((cd_spectra.init wl cd ht δ hm).baseline wl bc).ellipticity
       = SeriesN.ofList (List.zipWith (fun a b => a - b) cd bc)) ∧
    ((((cd_spectra.init wl cd ht δ hm).ht_filter).baseline wl bc).corrected = true ∧
     (((cd_spectra.init wl cd ht δ hm).ht_filter).baseline wl bc).wavelength
       = Series.ofList (wl.take (cutoffPosition hm wl.length ht)) ∧
     (((cd_spectra.init wl cd ht δ hm).ht_filter).baseline wl bc).ellipticity
       = SeriesN.ofList (List.zipWith (fun a b => a - b)
           (cd.take (cutoffPosition hm wl.length ht))
           (bc.take (cutoffPosition hm wl.length ht)))) := by
  constructor
  · have hell : (cd_spectra.init wl cd ht δ hm).ellipticity
        = (SeriesN.ofList cd).take wl.length := by
      have hlenof : (SeriesN.ofList cd).length = wl.length := by
        simp [SeriesN.ofList, hlen_cd]
      rw [← hlenof, List.take_length]
      rfl
    have hlo : (if (cd_spectra.init wl cd ht δ hm).filtered = true
          then (cd_spectra.init wl cd ht δ hm).wv_cutoff
          else (cd_spectra.init wl cd ht δ hm).wv_min)
        = (wl.get? (wl.length - 1)).getD 0 := by
      have hfilt : (cd_spectra.init wl cd ht δ hm).filtered = false := rfl
      rw [hfilt]
      simp only [Bool.false_eq_true, if_false]
      show pyIlocQ wl (-1) = (wl.get? (wl.length - 1)).getD 0
      norm_num [pyIlocQ]
    have hhi : (cd_spectra.init wl cd ht δ hm).wv_max = (wl.get? 0).getD 0 := by
      show pyIlocQ wl 0 = (wl.get? 0).getD 0
      norm_num [pyIlocQ]
    have hcore := baseline_core (cd_spectra.init wl cd ht δ hm) wl cd bc wl.length
      hne le_rfl hlen_bc hlen_cd hdesc rfl hell hlo hhi
    refine ⟨hcore.1, ?_, ?_⟩
    · rw [hcore.2.1, List.take_length]
    · rw [hcore.2.2]
      have h1 : cd.take wl.length = cd := by rw [← hlen_cd, List.take_length]
      have h2 : bc.take wl.length = bc := by rw [← hlen_bc, List.take_length]
      rw [h1, h2]
  · have tn : (((cutoffPosition hm wl.length ht : Int)) - 1 + 1).toNat
        = cutoffPosition hm wl.length ht := by omega
    have hell : ((cd_spectra.init wl cd ht δ hm).ht_filter).ellipticity
        = (SeriesN.ofList cd).take (cutoffPosition hm wl.length ht) := by
      simp [cd_spectra.ht_filter, cd_spectra.init, tn]
    have hcorr : ((cd_spectra.init wl cd ht δ hm).ht_filter).corrected = false := by
      simp [cd_spectra.ht_filter, cd_spectra.init]
    have hfilt : ((cd_spectra.init wl cd ht δ hm).ht_filter).filtered = true := by
      simp [cd_spectra.ht_filter, cd_spectra.init]
    have hlo : (if ((cd_spectra.init wl cd ht δ hm).ht_filter).filtered = true
          then ((cd_spectra.init wl cd ht δ hm).ht_filter).wv_cutoff
          else ((cd_spectra.init wl cd ht δ hm).ht_filter).wv_min)
        = (wl.get? (cutoffPosition hm wl.length ht - 1)).getD 0 := by
      rw [hfilt]
      simp only [if_true]
      have hcut : ((cd_spectra.init wl cd ht δ hm).ht_filter).wv_cutoff
          = pyIlocQ wl ((cutoffPosition hm wl.length ht : Int) - 1) := by
        simp [cd_spectra.ht_filter, cd_spectra.init]
      rw [hcut]
      have h1 : ¬ ((cutoffPosition hm wl.length ht : Int) - 1 < 0) := by omega
      have h2 : ((cutoffPosition hm wl.length ht : Int) - 1).toNat
          = cutoffPosition hm wl.length ht - 1 := by omega
      simp only [pyIlocQ, if_neg h1, h2]
    have hhi : ((cd_spectra.init wl cd ht δ hm).ht_filter).wv_max
        = (wl.get? 0).getD 0 := by
      have : ((cd_spectra.init wl cd ht δ hm).ht_filter).wv_max = pyIlocQ wl 0 := by
        simp [cd_spectra.ht_filter, cd_spectra.init]
      rw [this]
      norm_num [pyIlocQ]
    exact baseline_core ((cd_spectra.init wl cd ht δ hm).ht_filter) wl cd bc
      (cutoffPosition hm wl.length ht) hpc (cutoffPosition_le hm wl.length ht hlen_ht)
      hlen_bc hlen_cd hdesc hcorr hell hlo hhi

/-- Witness for C3: domain [3, 2, 1], HT exceeding the threshold at index 1
(cutoff position 1), blank over the same domain. -/
theorem claim_C3_witness :
    (((cd_spectra.init [3, 2, 1] [5, 6, 7] [100, 700, 50] 1 600).baseline
        [3, 2, 1] [1, 1, 1]).corrected = true ∧
     ((cd_spectra.init [3, 2, 1] [5, 6, 7] [100, 700, 50] 1 600).baseline
        [3, 2, 1] [1, 1, 1]).wavelength = Series.ofList [3, 2, 1] ∧
     ((cd_spectra.init [3, 2, 1] [5, 6, 7] [100, 700, 50] 1 600).baseline
        [3, 2, 1] [1, 1, 1]).ellipticity
       = SeriesN.ofList (List.zipWith (fun a b => a - b) [5, 6, 7] [1, 1, 1])) ∧
    ((((cd_spectra.init [3, 2, 1] [5, 6, 7] [100, 700, 50] 1 600).ht_filter).baseline
        [3, 2, 1] [1, 1, 1]).corrected = true ∧
     (((cd_spectra.init [3, 2, 1] [5, 6, 7] [100, 700, 50] 1 600).ht_filter).baseline
        [3, 2, 1] [1, 1, 1]).wavelength
       = Series.ofList ([(3 : ℚ), 2, 1].take
           (cutoffPosition 600 [(3 : ℚ), 2, 1].length [100, 700, 50])) ∧
     (((cd_spectra.init [3, 2, 1] [5, 6, 7] [100, 700, 50] 1 600).ht_filter).baseline
        [3, 2, 1] [1, 1, 1]).ellipticity
       = SeriesN.ofList (List.zipWith (fun a b => a - b)
           ([(5 : ℚ), 6, 7].take
             (cutoffPosition 600 [(3 : ℚ), 2, 1].length [100, 700, 50]))
           ([(1 : ℚ), 1, 1].take
             (cutoffPosition 600 [(3 : ℚ), 2, 1].length [100, 700, 50])))) :=
  claim_C3_baseline_subtraction [3, 2, 1] [5, 6, 7] [100, 700, 50] [1, 1, 1] 1 600
    rfl rfl rfl (by norm_num [List.pairwise_cons]) (by norm_num)
    (by norm_num [cutoffPosition, firstExceed])
